import Mathlib

/-!
Verification of the i18n-manager incremental index engine
(`src/workspace-scanner.ts`) against its natural-language specification.

The development shallowly embeds the scanner's data model and operations:

* `WalkerResult` / `WalkerByIdResult` — the occurrence records.  The record
  type itself comes from `walker.ts`, which is not part of the given sources,
  so its fields are modelled from the spec (§3, §6): `id`, optional `value`,
  `state`, optional `error`, and a `location` payload (opaque here).
* `strippedString` — the normalization used by the consistency check.
* `consistencyStep` / `htmlStep` / `validateBucket` / `validatedResultsById` —
  the validation pipeline of `validatedResultsById$`.
* `scanBuild` / `onDocumentSave` — the initial scan and the per-document
  delta update, as pure state transitions on the two views (by-file view as
  an association list mirroring a JS `Map`, by-identifier view as a total
  function from keys to buckets, where an absent bucket is the empty list —
  observationally faithful because the scanner treats a missing entry and an
  empty entry identically when reading).
* a heap-based model of the by-identifier update (`saveUpdateHeap`) in which
  bucket arrays are mutable cells, used to analyse the snapshot-sharing
  behaviour of `onDocumentSave` (`new Map(old)` copies the key→array
  references; `splice`/`push` then mutate the shared arrays).
* `initializeStep` — the engine state machine of `initialize()`.
* `deliverTick` — the delivery time of a save buffered by the readiness
  gate's `setInterval(…, 1000)` polling loop.
-/

namespace I18n

/-- Occurrence state, from the string union used by the scanner
(`'success' | 'warning' | 'error'`). -/
inductive OccState where
  | success
  | warning
  | error
deriving DecidableEq, Repr

/-- Modelled from the spec: one occurrence record as produced by the external
extractor (`WalkerResult` from `walker.ts`, absent from the given sources).
Fields per spec §3/§6: translation key `id`, optional literal `value`,
a `state`, an optional human-readable `error`, and a `location` payload
(opaque, here a number). -/
structure WalkerResult where
  id : String
  value : Option String
  state : OccState
  error : Option String
  location : Nat
deriving DecidableEq, Repr

/-- `WalkerByIdResult = WalkerResult & { file: Uri }` — an occurrence tagged
with its owning document (the `Uri` rendered as a string, as the scanner
itself only ever compares `uri.toString()`). -/
structure WalkerByIdResult extends WalkerResult where
  file : String
deriving DecidableEq, Repr

/-- The fixed consistency-mismatch message. -/
def consistencyMessage : String :=
  "There are other items registered with this ID whose value do not match!"

/-- The fixed HTML-shape warning message. -/
def htmlMessage : String :=
  "This translation contains HTML tag. This is not recommended!"

/-- `str.replace(/[\n\r]/gi, '')` — delete every newline character. -/
def removeNewlines (l : List Char) : List Char :=
  l.filter (fun c => !(c == '\n' || c == '\r'))

/-- One left-to-right pass of `replace(/{{[^}]+}}/gi, '{}')` over the
character list, with a fuel argument (the scan advances at least one
character per step, so fuel equal to the list length is always enough;
when fuel runs out the list is necessarily already empty).
A match is `\x7b\x7b`, then a nonempty run of non-`\x7d` characters, then
`\x7d\x7d`; on a match the regex engine resumes after the match, on a
failed attempt it advances one character. -/
def collapsePlaceholdersAux : Nat → List Char → List Char
  | 0, l => l
  | _ + 1, [] => []
  | fuel + 1, '\x7b' :: '\x7b' :: rest =>
    match rest.takeWhile (fun c => c != '\x7d'), rest.dropWhile (fun c => c != '\x7d') with
    | _ :: _, '\x7d' :: '\x7d' :: rest2 =>
      '\x7b' :: '\x7d' :: collapsePlaceholdersAux fuel rest2
    | _, _ => '\x7b' :: collapsePlaceholdersAux fuel ('\x7b' :: rest)
  | fuel + 1, c :: rest => c :: collapsePlaceholdersAux fuel rest

/-- `replace(/{{[^}]+}}/gi, '{}')` — collapse every interpolation
placeholder to the canonical empty placeholder token. -/
def collapsePlaceholders (l : List Char) : List Char :=
  collapsePlaceholdersAux l.length l

/-- `replace(/ +/g, ' ')` — collapse every run of spaces to one space. -/
def collapseSpaces : List Char → List Char
  | [] => []
  | [c] => [c]
  | ' ' :: ' ' :: rest => collapseSpaces (' ' :: rest)
  | c :: rest => c :: collapseSpaces rest

/-- `WorkspaceScanner.strippedString`: the normalization used for the
consistency comparison.  `if (!str) return str` keeps the empty string
(and, at call sites, an absent value) unchanged. -/
def strippedString (s : String) : String :=
  if s = "" then s
  else String.mk (collapseSpaces (collapsePlaceholders (removeNewlines s.data)))

/-- `resultsCopy.map(result => result.value).filter(Boolean)` — the bucket's
values with absent and empty (falsy) values dropped, in bucket order. -/
def truthyValues (results : List WalkerByIdResult) : List String :=
  results.filterMap (fun r =>
    match r.value with
    | some s => if s = "" then none else some s
    | none => none)

/-- The consistency overwrite `{ ...r, state: 'error', error: … }`. -/
def markError (r : WalkerByIdResult) : WalkerByIdResult :=
  { r with state := .error, error := some consistencyMessage }

/-- The consistency rule of `validatedResultsById$`: compare every truthy
value's normalization against `stripped0`, the normalization of the first
truthy value (`strippedString(values[0])`); if the bucket has more than one
truthy value (`values.length > 1`) and any normalization differs
(`values.some(…)`), overwrite every occurrence of the bucket with the error
state.  `(truthyValues results).headD ""` renders `values[0]`: under the
`values.length > 1` guard the list is nonempty, so the default is never
consulted (in JS, `values[0]` of an empty list is `undefined` and the guard
is already false). -/
def consistencyStep (results : List WalkerByIdResult) : List WalkerByIdResult :=
  if 1 < (truthyValues results).length ∧
      ∃ v ∈ truthyValues results,
        strippedString v ≠ strippedString ((truthyValues results).headD "") then
    results.map markError
  else results

/-- The body of the shape rule's loop: an occurrence still in `success`
state whose (truthy) value contains a `<` character is escalated to
`warning` (`value && value.indexOf('<') !== -1`); everything else is left
unchanged. -/
def htmlEscalate (r : WalkerByIdResult) : WalkerByIdResult :=
  if r.state = .success then
    match r.value with
    | some v =>
      if v ≠ "" ∧ v.data.contains '<' then
        { r with state := .warning, error := some htmlMessage }
      else r
    | none => r
  else r

/-- The shape rule of `validatedResultsById$`: `htmlEscalate` applied to
every occurrence of the bucket. -/
def htmlStep (results : List WalkerByIdResult) : List WalkerByIdResult :=
  results.map htmlEscalate

/-- One bucket of the validated view: the consistency rule followed by the
shape rule, on a copy of the bucket. -/
def validateBucket (results : List WalkerByIdResult) : List WalkerByIdResult :=
  htmlStep (consistencyStep results)

/-- The by-identifier view: a key is mapped to its bucket, an absent key to
the empty bucket. -/
abbrev ByIdView : Type := String → List WalkerByIdResult

/-- The derived validated view (`validatedResultsById$`): every bucket of the
by-identifier view is validated; the underlying view is not changed. -/
def validatedResultsById (m : ByIdView) : ByIdView :=
  fun k => validateBucket (m k)

/-! ## The two index views and their updates (functional model)

The by-file view is a JS `Map` from document uri to that document's
occurrences; we embed it as an association list, with `Map.set` replacing
the value of an existing key in place (keeping its position) and appending
a fresh key at the end, and `Map.get` returning the first (only) match. -/

/-- The by-file view: association list from document uri to occurrences. -/
abbrev ByFileView : Type := List (String × List WalkerResult)

/-- `Map.get`: the value of the first matching key, if any. -/
def lookupFile : ByFileView → String → Option (List WalkerResult)
  | [], _ => none
  | (k, v) :: rest, d => if k = d then some v else lookupFile rest d

/-- `Map.set`: replace the value of an existing key in place, or append a
fresh key at the end. -/
def mapSet : ByFileView → String → List WalkerResult → ByFileView
  | [], k, v => [(k, v)]
  | (k', v') :: rest, k, v =>
    if k' = k then (k, v) :: rest else (k', v') :: mapSet rest k v

/-- `{ ...res, file: uri }` — tag an occurrence with its owning document. -/
def tagOcc (uri : String) (r : WalkerResult) : WalkerByIdResult :=
  { r with file := uri }

/-- Insert one extracted occurrence into its identifier's bucket (the
`entry.push(newRecord)` / `set(res.id, [newRecord])` step: both append the
tagged record at the end of the bucket, an absent bucket being empty). -/
def addToBucket (bi : ByIdView) (uri : String) (r : WalkerResult) : ByIdView :=
  fun k => if k = r.id then bi r.id ++ [tagOcc uri r] else bi k

/-- Insert every extracted occurrence in order (`results.forEach`). -/
def addResults (bi : ByIdView) (uri : String) (rs : List WalkerResult) : ByIdView :=
  rs.foldl (fun m r => addToBucket m uri r) bi

/-- `entry.findIndex(c => c.file.toString() === uri)` followed by
`entry.splice(fileIndex, 1)`: remove the first record of the bucket owned by
`uri`, if any. -/
def removeFirstByFile (uri : String) : List WalkerByIdResult → List WalkerByIdResult
  | [] => []
  | o :: rest => if o.file = uri then rest else o :: removeFirstByFile uri rest

/-- One step of the removal loop: for one occurrence previously registered
for the saved document, remove the first `uri`-owned record from that
occurrence's identifier bucket (a bucket emptied this way is deleted by the
scanner, which in this view model is the same as mapping to `[]`). -/
def removeBucketOcc (bi : ByIdView) (uri : String) (r : WalkerResult) : ByIdView :=
  fun k => if k = r.id then removeFirstByFile uri (bi r.id) else bi k

/-- The removal loop (`oldRegistry.forEach`). -/
def removeResults (bi : ByIdView) (uri : String) (old : List WalkerResult) : ByIdView :=
  old.foldl (fun m r => removeBucketOcc m uri r) bi

/-- `WorkspaceScanner.onDocumentSave`, as a pure state transition on the
latest published pair of views: the by-file view gets key `uri` set to the
fresh `results` (unconditionally — also when `results` is empty); the
by-identifier view first drops, for every occurrence in the document's old
registry, the first `uri`-owned record of that identifier's bucket, then
appends every fresh occurrence tagged with `uri`.  (The `.html` eligibility
filter and the not-yet-initialized guard happen before this transition and
drop the event.) -/
def onDocumentSave (bf : ByFileView) (bi : ByIdView) (uri : String)
    (results : List WalkerResult) : ByFileView × ByIdView :=
  (mapSet bf uri results,
   addResults (removeResults bi uri ((lookupFile bf uri).getD [])) uri results)

/-- One document of the initial scan: documents yielding zero occurrences
contribute to neither view (`if (walkerResults.length > 0)`). -/
def scanFile (acc : ByFileView × ByIdView) (f : String × List WalkerResult) :
    ByFileView × ByIdView :=
  if 0 < f.2.length then (mapSet acc.1 f.1 f.2, addResults acc.2 f.1 f.2) else acc

/-- The initial scan (`initialize`): both views are built in one pass over
the extraction results of all eligible documents, starting from empty
views, and then published as the initial snapshot. -/
def scanBuild (files : List (String × List WalkerResult)) : ByFileView × ByIdView :=
  files.foldl scanFile ([], fun _ => [])

/-- A sequence of save updates applied in notification order. -/
def applySaves (s : ByFileView × ByIdView)
    (saves : List (String × List WalkerResult)) : ByFileView × ByIdView :=
  saves.foldl (fun acc sv => onDocumentSave acc.1 acc.2 sv.1 sv.2) s

/-! ## The engine state machine of `initialize()` (claim C6) -/

/-- The scanner's `_state` field. -/
inductive EngState where
  | uninitialized
  | initializing
  | initialized
deriving DecidableEq, Repr

/-- Outcome of the initial scan's barrier join (`Promise.all`): either every
document opened and parsed (`ok`, with the extraction results), or some
document failed (`fail`, the `.catch` branch). -/
inductive ScanOutcome where
  | ok (files : List (String × List WalkerResult))
  | fail

/-- The engine: its state and the latest published snapshots (`none` before
the first publish). -/
structure Engine where
  state : EngState
  byFile : Option ByFileView
  byId : Option ByIdView

/-- `WorkspaceScanner.initialize`, observed at the completion of the scan:
a call while not `uninitialized` returns immediately (`of(undefined)`) and
changes nothing; otherwise the state becomes `initializing` and then, when
the barrier join resolves, either both views are published and the state
becomes `initialized`, or the failure is logged by the `.catch` handler —
which publishes nothing and leaves `_state` untouched, i.e. still
`initializing`.  The returned flag says whether a snapshot was published. -/
def initializeStep (e : Engine) (outcome : ScanOutcome) : Engine × Bool :=
  if e.state ≠ .uninitialized then (e, false)
  else
    match outcome with
    | .ok files =>
      ({ state := .initialized,
         byFile := some (scanBuild files).1,
         byId := some (scanBuild files).2 }, true)
    | .fail => ({ e with state := .initializing }, false)

/-! ## The readiness gate's retry timer (claim C9)

A save notification arriving at time `a` (in milliseconds) while the engine
is not yet `initialized` starts its own `setInterval(…, 1000)`; the callback
runs at times `a + 1000`, `a + 2000`, …, delivers the document on the first
run at which `_state === 'initialized'` — i.e. the first tick at or after
the initialization time `T` — and then clears its interval, so the
notification is delivered exactly once, at that tick. -/

/-- The delivery time of a save buffered at time `a` when the engine
initializes at time `T` (with `a < T`): the first multiple-of-1000 offset
from `a` that is at or after `T`.  `deliverTick_spec` proves this closed
form is exactly the first tick of the notification's interval at or after
`T`. -/
def deliverTick (a T : Nat) : Nat :=
  a + 1000 * ((T - a + 999) / 1000)

/-! ## Heap model of the by-identifier update (claim C7)

`onDocumentSave` builds the new by-identifier view as
`new Map(this._resultsById)` — a *shallow* copy: the new `Map` holds the
same key→array references as the previously published snapshot.  The update
then calls `entry.splice(...)` and `entry.push(...)` on those shared
arrays.  To make that observable we model the bucket arrays as cells of a
heap and the `Map`s as association lists of pointers into that heap; the
previously published snapshot is the old pointer map read against the
current heap. -/

/-- The store of bucket arrays; a pointer is an index. -/
abbrev Heap : Type := List (List WalkerByIdResult)

/-- A `Map<String, WalkerByIdResult[]>`: keys mapped to array references. -/
abbrev PtrMap : Type := List (String × Nat)

/-- `Map.get` on a pointer map. -/
def ptrLookup : PtrMap → String → Option Nat
  | [], _ => none
  | (k, p) :: rest, d => if k = d then some p else ptrLookup rest d

/-- `Map.delete`: remove the (first, only) entry of a key. -/
def ptrDelete : PtrMap → String → PtrMap
  | [], _ => []
  | (k, p) :: rest, d => if k = d then rest else (k, p) :: ptrDelete rest d

/-- `Map.set` on a pointer map. -/
def ptrSet : PtrMap → String → Nat → PtrMap
  | [], k, p => [(k, p)]
  | (k', p') :: rest, k, p =>
    if k' = k then (k, p) :: rest else (k', p') :: ptrSet rest k p

/-- Read a bucket array through its pointer. -/
def heapGet (h : Heap) (p : Nat) : List WalkerByIdResult :=
  (h : List _).getD p []

/-- Overwrite a bucket array in place. -/
def heapSet (h : Heap) (p : Nat) (v : List WalkerByIdResult) : Heap :=
  (h : List _).set p v

/-- What a published `Map` object shows its consumers: its entries read
against the current heap. -/
def derefMap (h : Heap) (m : PtrMap) (k : String) : List WalkerByIdResult :=
  match ptrLookup m k with
  | some p => heapGet h p
  | none => []

/-- One step of `onDocumentSave`'s removal loop in the heap model: look the
identifier's bucket up in the (copied) map, `findIndex` the first record
owned by `uri`, `splice` it out of the shared array, and `Map.delete` the
key when the array became empty. -/
def spliceRemove (uri : String) (h : Heap) (m : PtrMap) (r : WalkerResult) :
    Heap × PtrMap :=
  match ptrLookup m r.id with
  | none => (h, m)
  | some p =>
    let entry := heapGet h p
    match entry.findIdx? (fun o => o.file == uri) with
    | none => (h, m)
    | some i =>
      let entry2 := entry.eraseIdx i
      (heapSet h p entry2, if entry2.length = 0 then ptrDelete m r.id else m)

/-- One step of `onDocumentSave`'s insertion loop in the heap model:
`entry.push` mutates the shared array in place; a missing key allocates a
fresh one-element array. -/
def pushAdd (uri : String) (h : Heap) (m : PtrMap) (r : WalkerResult) :
    Heap × PtrMap :=
  match ptrLookup m r.id with
  | some p => (heapSet h p (heapGet h p ++ [tagOcc uri r]), m)
  | none => (h ++ [[tagOcc uri r]], ptrSet m r.id h.length)

/-- The by-identifier half of `onDocumentSave` in the heap model.  `m` is
the pointer map of the previously published snapshot; `new Map(m)` copies
exactly those pointers, so the update starts from `m` itself, splices the
old registry's records out and pushes the fresh ones in, returning the new
heap and the new map.  The old snapshot is `derefMap h' m` for the new heap
`h'`. -/
def saveUpdateHeap (h : Heap) (m : PtrMap) (uri : String)
    (oldReg results : List WalkerResult) : Heap × PtrMap :=
  let removed := oldReg.foldl (fun st r => spliceRemove uri st.1 st.2 r) (h, m)
  results.foldl (fun st r => pushAdd uri st.1 st.2 r) removed

/-- Well-formedness of a published heap snapshot: every pointer is live,
two distinct keys never share an array, and keys are unique (as in a JS
`Map`). -/
def HeapWF (h : Heap) (m : PtrMap) : Prop :=
  (∀ k p, ptrLookup m k = some p → p < (h : List _).length)
  ∧ (∀ k1 k2 p, k1 ≠ k2 → ptrLookup m k1 = some p → ptrLookup m k2 ≠ some p)
  ∧ (m.map Prod.fst).Nodup

/-- The cross-view invariant of the two published snapshots: for every
identifier `k` and document `d`, the records of bucket `k` owned by `d`
are, as a multiset, exactly the id-`k` occurrences stored for `d` in the
by-file view; and every record sits in the bucket of its own identifier.
This is the precise form of "the two views are two indexes over one
logical occurrence set". -/
def Corresponds (bf : ByFileView) (bi : ByIdView) : Prop :=
  (∀ k d, (((bi k).filter (fun o => o.file = d)).map
      (fun o => o.toWalkerResult)).Perm
      (((lookupFile bf d).getD []).filter (fun r => r.id = k)))
  ∧ ∀ k, ∀ o ∈ bi k, o.id = k

/-! ## Concrete sample data used by counterexamples and witnesses -/

/-- An occurrence of `id1` carrying the empty string as value (falsy in JS,
so dropped by `filter(Boolean)`), first in its bucket. -/
def occEmptyVal : WalkerByIdResult :=
  { id := "id1", value := some "", state := .success, error := none,
    location := 0, file := "f1" }

/-- An occurrence of `id1` with value `"a"`. -/
def occA1 : WalkerByIdResult :=
  { id := "id1", value := some "a", state := .success, error := none,
    location := 1, file := "f1" }

/-- A second occurrence of `id1` with value `"a"`, in another document. -/
def occA2 : WalkerByIdResult :=
  { id := "id1", value := some "a", state := .success, error := none,
    location := 2, file := "f2" }

/-- A bucket whose first occurrence has an empty (falsy) value and whose
remaining occurrences agree with each other. -/
def bucketC1 : List WalkerByIdResult := [occEmptyVal, occA1, occA2]

/-- A by-identifier view holding exactly `bucketC1` under `id1`. -/
def biC1 : ByIdView := fun k => if k = "id1" then bucketC1 else []

/-- An occurrence of `id2` with value `"x"`. -/
def occX : WalkerByIdResult :=
  { id := "id2", value := some "x", state := .success, error := none,
    location := 0, file := "f1" }

/-- An occurrence of `id2` with value `"y"` (a genuine mismatch). -/
def occY : WalkerByIdResult :=
  { id := "id2", value := some "y", state := .success, error := none,
    location := 1, file := "f2" }

/-- A bucket with two normalization-differing truthy values. -/
def bucketDiff : List WalkerByIdResult := [occX, occY]

/-- A lone `success` occurrence whose value holds an HTML tag. -/
def occHtml : WalkerByIdResult :=
  { id := "id3", value := some "<b>Hello</b>", state := .success, error := none,
    location := 0, file := "f1" }

/-- The singleton bucket of `occHtml`. -/
def lHtml : List WalkerByIdResult := [occHtml]

/-- A sample extracted occurrence for scan/save scenarios. -/
def rW : WalkerResult :=
  { id := "welcome", value := some "Hello", state := .success, error := none,
    location := 0 }

/-- A second sample occurrence, sharing the identifier of `rW`. -/
def rW2 : WalkerResult :=
  { id := "welcome", value := some "Hello", state := .success, error := none,
    location := 5 }

/-- A one-document corpus for scan scenarios. -/
def filesW : List (String × List WalkerResult) := [("file:a.html", [rW])]

/-- A two-record heap scenario: one bucket shared by two documents. -/
def heap0 : Heap := [[tagOcc "f1" rW, tagOcc "f2" rW2]]

/-- The published pointer map of `heap0`: `welcome` points at cell 0. -/
def ptr0 : PtrMap := [("welcome", 0)]

/-- The engine before any `initialize()` call. -/
def engine0 : Engine := { state := .uninitialized, byFile := none, byId := none }

/-! ## Lemmas about the normalization -/

lemma collapseSpaces_cons2_ne {c d : Char} (rest : List Char)
    (h : ¬(c = ' ' ∧ d = ' ')) :
    collapseSpaces (c :: d :: rest) = c :: collapseSpaces (d :: rest) := by
  conv_lhs => rw [collapseSpaces.eq_def]
  split <;> simp_all

lemma mem_collapseSpaces {c : Char} {l : List Char}
    (h : c ∈ collapseSpaces l) : c ∈ l := by
  induction l using collapseSpaces.induct with
  | case1 => simp [collapseSpaces] at h
  | case2 d => simpa [collapseSpaces] using h
  | case3 rest ih =>
    rw [collapseSpaces] at h
    rcases List.mem_cons.mp (ih h) with e | e <;> simp [e]
  | case4 c1 rest hne hsp ih =>
    obtain ⟨d, rest2, rfl⟩ : ∃ d r2, rest = d :: r2 := by
      cases rest
      · exact absurd rfl hne
      · exact ⟨_, _, rfl⟩
    have hcc : ¬(c1 = ' ' ∧ d = ' ') := by
      rintro ⟨rfl, rfl⟩
      exact hsp rest2 rfl rfl
    rw [collapseSpaces_cons2_ne rest2 hcc] at h
    rcases List.mem_cons.mp h with e | e
    · simp [e]
    · rcases List.mem_cons.mp (ih e) with e2 | e2 <;> simp [e2]

lemma collapseSpaces_head_cons (c : Char) (l : List Char) :
    ∃ t, collapseSpaces (c :: l) = c :: t := by
  induction l generalizing c with
  | nil => exact ⟨[], by rw [collapseSpaces]⟩
  | cons d rest ih =>
    by_cases hc : c = ' ' ∧ d = ' '
    · obtain ⟨rfl, rfl⟩ := hc
      rw [collapseSpaces]
      exact ih ' '
    · rw [collapseSpaces_cons2_ne rest hc]
      exact ⟨_, rfl⟩

/-- The output of `collapseSpaces` never holds two adjacent spaces. -/
lemma collapseSpaces_chain (l : List Char) :
    (collapseSpaces l).Chain' (fun a b => ¬(a = ' ' ∧ b = ' ')) := by
  induction l using collapseSpaces.induct with
  | case1 => simp [collapseSpaces]
  | case2 d => simp [collapseSpaces]
  | case3 rest ih => rwa [collapseSpaces]
  | case4 c1 rest hne hsp ih =>
    obtain ⟨d, rest2, rfl⟩ : ∃ d r2, rest = d :: r2 := by
      cases rest
      · exact absurd rfl hne
      · exact ⟨_, _, rfl⟩
    have hcc : ¬(c1 = ' ' ∧ d = ' ') := by
      rintro ⟨rfl, rfl⟩
      exact hsp rest2 rfl rfl
    rw [collapseSpaces_cons2_ne rest2 hcc]
    obtain ⟨t, ht⟩ := collapseSpaces_head_cons d rest2
    rw [ht] at ih ⊢
    exact List.Chain'.cons hcc ih

lemma cpa_succ_match {fuel : Nat} {rest rest2 : List Char} {hd : Char} {tl : List Char}
    (htake : rest.takeWhile (fun c => c != '\x7d') = hd :: tl)
    (hdrop : rest.dropWhile (fun c => c != '\x7d') = '\x7d' :: '\x7d' :: rest2) :
    collapsePlaceholdersAux (fuel + 1) ('\x7b' :: '\x7b' :: rest)
      = '\x7b' :: '\x7d' :: collapsePlaceholdersAux fuel rest2 := by
  conv_lhs => rw [collapsePlaceholdersAux.eq_def]
  split
  · simp_all
  · simp_all
  · rename_i fuel2 rest2b heq1 heq2
    obtain rfl : fuel = fuel2 := by omega
    obtain rfl : rest = rest2b := by
      injection heq2 with h1 h2
      injection h2
    rw [htake, hdrop]
    rfl
  · rename_i fuel2 c2 rest2b hno heq1 heq2
    exfalso
    obtain ⟨rfl, rfl⟩ : c2 = '\x7b' ∧ rest2b = '\x7b' :: rest := by
      injection heq2 with h1 h2
      exact ⟨h1.symm, h2.symm⟩
    exact hno rest rfl rfl

lemma cpa_succ_nomatch {fuel : Nat} {rest : List Char}
    (h : ∀ (hd : Char) (tl rest2 : List Char),
      rest.takeWhile (fun c => c != '\x7d') = hd :: tl →
      rest.dropWhile (fun c => c != '\x7d') = '\x7d' :: '\x7d' :: rest2 → False) :
    collapsePlaceholdersAux (fuel + 1) ('\x7b' :: '\x7b' :: rest)
      = '\x7b' :: collapsePlaceholdersAux fuel ('\x7b' :: rest) := by
  conv_lhs => rw [collapsePlaceholdersAux.eq_def]
  split
  · simp_all
  · simp_all
  · rename_i fuel2 rest2b heq1 heq2
    obtain rfl : fuel = fuel2 := by omega
    obtain rfl : rest = rest2b := by
      injection heq2 with h1 h2
      injection h2
    split
    · rename_i hds htk
      exact (h _ _ _ hds htk).elim
    · rfl
  · rename_i fuel2 c2 rest2b hno heq1 heq2
    exfalso
    obtain ⟨rfl, rfl⟩ : c2 = '\x7b' ∧ rest2b = '\x7b' :: rest := by
      injection heq2 with h1 h2
      exact ⟨h1.symm, h2.symm⟩
    exact hno rest rfl rfl

lemma cpa_succ_plain {fuel : Nat} {c : Char} {rest : List Char}
    (h : ∀ r2, c = '\x7b' → rest = '\x7b' :: r2 → False) :
    collapsePlaceholdersAux (fuel + 1) (c :: rest)
      = c :: collapsePlaceholdersAux fuel rest := by
  conv_lhs => rw [collapsePlaceholdersAux.eq_def]
  split
  · simp_all
  · simp_all
  · rename_i fuel2 rest2b heq1 heq2
    exfalso
    obtain ⟨rfl, rfl⟩ : c = '\x7b' ∧ rest = '\x7b' :: rest2b := by
      injection heq2 with h1 h2
      exact ⟨h1, h2⟩
    exact h rest2b rfl rfl
  · rename_i fuel2 c2 rest2b hno heq1 heq2
    obtain rfl : fuel = fuel2 := by omega
    obtain ⟨rfl, rfl⟩ : c = c2 ∧ rest = rest2b := by
      injection heq2 with h1 h2
      exact ⟨h1, h2⟩
    rfl

/-- Characters of the collapsed output come from the input, except for the
canonical placeholder's braces. -/
lemma mem_collapsePlaceholdersAux {c : Char} :
    ∀ {fuel : Nat} {l : List Char}, c ∈ collapsePlaceholdersAux fuel l →
      c ∈ l ∨ c = '\x7b' ∨ c = '\x7d' := by
  intro fuel l
  induction fuel, l using collapsePlaceholdersAux.induct with
  | case1 l =>
    intro h
    rw [collapsePlaceholdersAux] at h
    exact Or.inl h
  | case2 n =>
    intro h
    rw [collapsePlaceholdersAux] at h
    simp at h
  | case3 fuel rest hd tl rest2 hdrop htake ih =>
    intro h
    rw [cpa_succ_match htake hdrop] at h
    rcases List.mem_cons.mp h with e | h2
    · exact Or.inr (Or.inl e)
    rcases List.mem_cons.mp h2 with e | h3
    · exact Or.inr (Or.inr e)
    rcases ih h3 with e | e
    · refine Or.inl ?_
      have h4 : c ∈ rest.dropWhile (fun c => c != '\x7d') := by
        rw [hdrop]
        simp [e]
      have h5 : c ∈ rest := (List.dropWhile_sublist _).subset h4
      simp [h5]
    · exact Or.inr e
  | case4 fuel rest hno ih =>
    intro h
    rw [cpa_succ_nomatch hno] at h
    rcases List.mem_cons.mp h with e | h2
    · exact Or.inr (Or.inl e)
    rcases ih h2 with e | e
    · rcases List.mem_cons.mp e with e2 | e2
      · exact Or.inr (Or.inl e2)
      · exact Or.inl (by simp [e2])
    · exact Or.inr e
  | case5 fuel c2 rest hno ih =>
    intro h
    rw [cpa_succ_plain hno] at h
    rcases List.mem_cons.mp h with e | h2
    · exact Or.inl (by simp [e])
    rcases ih h2 with e | e
    · exact Or.inl (by simp [e])
    · exact Or.inr e

/-- No newline character survives the normalization. -/
lemma strippedString_no_newline (s : String) :
    '\n' ∉ (strippedString s).data ∧ '\r' ∉ (strippedString s).data := by
  rw [strippedString]
  split
  · rename_i hs
    subst hs
    constructor <;> simp [String.data]
  · constructor <;>
    · intro hmem
      have h1 := mem_collapseSpaces hmem
      rcases mem_collapsePlaceholdersAux h1 with h2 | h2 | h2
      · simp [removeNewlines, List.mem_filter] at h2
      · simp at h2
      · simp at h2

/-- No run of two spaces survives the normalization. -/
lemma strippedString_no_double_space (s : String) :
    (strippedString s).data.Chain' (fun a b => ¬(a = ' ' ∧ b = ' ')) := by
  rw [strippedString]
  split
  · rename_i hs
    subst hs
    simp [String.data]
  · exact collapseSpaces_chain _

/-! ## Lemmas about the validation pipeline -/

@[simp] lemma markError_state (r : WalkerByIdResult) :
    (markError r).state = .error := rfl

@[simp] lemma markError_error (r : WalkerByIdResult) :
    (markError r).error = some consistencyMessage := rfl

lemma htmlEscalate_of_not_success {r : WalkerByIdResult} (h : r.state ≠ .success) :
    htmlEscalate r = r := by
  simp [htmlEscalate, h]

/-- A bucket whose truthy values hold a normalization mismatch is wholly
overwritten with the consistency error. -/
lemma consistency_triggered {l : List WalkerByIdResult} {v0 : String} {vs : List String}
    (htv : truthyValues l = v0 :: vs) (hne : vs ≠ [])
    (hdiff : ∃ v ∈ vs, strippedString v ≠ strippedString v0) :
    consistencyStep l = l.map markError := by
  rw [consistencyStep, htv]
  rw [if_pos]
  refine ⟨by simpa using List.length_pos.mpr hne, ?_⟩
  obtain ⟨v, hv, hd⟩ := hdiff
  exact ⟨v, List.mem_cons_of_mem _ hv, by simpa using hd⟩

/-- A bucket whose truthy values all normalize like the first one is left
alone by the consistency rule. -/
lemma consistency_skipped_of_same {l : List WalkerByIdResult} {v0 : String}
    {vs : List String} (htv : truthyValues l = v0 :: vs)
    (hsame : ∀ v ∈ vs, strippedString v = strippedString v0) :
    consistencyStep l = l := by
  rw [consistencyStep, htv]
  rw [if_neg]
  rintro ⟨-, v, hv, hd⟩
  rcases List.mem_cons.mp hv with rfl | hv2
  · exact hd (by simp)
  · exact hd (by simpa using hsame v hv2)

/-- A bucket with at most one truthy value is left alone by the consistency
rule. -/
lemma consistency_skipped_of_short {l : List WalkerByIdResult}
    (h : (truthyValues l).length ≤ 1) :
    consistencyStep l = l := by
  rw [consistencyStep]
  rw [if_neg]
  rintro ⟨hlen, -⟩
  omega

lemma consistencyStep_cases (l : List WalkerByIdResult) :
    consistencyStep l = l ∨ consistencyStep l = l.map markError := by
  rw [consistencyStep]
  split
  · exact Or.inr rfl
  · exact Or.inl rfl

/-- After a triggered consistency rule, the whole validated bucket is in
error state (the shape rule skips non-`success` occurrences). -/
lemma validateBucket_all_error {l : List WalkerByIdResult} {v0 : String}
    {vs : List String} (htv : truthyValues l = v0 :: vs) (hne : vs ≠ [])
    (hdiff : ∃ v ∈ vs, strippedString v ≠ strippedString v0) :
    ∀ o ∈ validateBucket l, o.state = .error ∧ o.error = some consistencyMessage := by
  intro o ho
  rw [validateBucket, consistency_triggered htv hne hdiff] at ho
  rw [htmlStep] at ho
  simp only [List.map_map, List.mem_map] at ho
  obtain ⟨r, -, rfl⟩ := ho
  rw [Function.comp_apply, htmlEscalate_of_not_success (by simp)]
  simp

/-! ## Claims about the validation pipeline -/

/-- C5: the normalization used for consistency comparison deletes all
newline characters, collapses every double-brace interpolation placeholder
to the canonical empty token, and collapses every run of spaces to a single
space; in particular `"Hi \x7b\x7bname\x7d\x7d"` and
`"Hi \x7b\x7bother\x7d\x7d"` both normalize to `"Hi \x7b\x7d"`. -/
theorem claim_C5_normalization :
    strippedString "Hi \x7b\x7bname\x7d\x7d" = "Hi \x7b\x7d"
    ∧ strippedString "Hi \x7b\x7bother\x7d\x7d" = "Hi \x7b\x7d"
    ∧ (∀ s : String, '\n' ∉ (strippedString s).data ∧ '\r' ∉ (strippedString s).data)
    ∧ (∀ s : String, (strippedString s).data.Chain' (fun a b => ¬(a = ' ' ∧ b = ' '))) :=
  ⟨by decide, by decide, strippedString_no_newline, strippedString_no_double_space⟩

/-- C10: in the consistency check, occurrences with an absent or empty
value are excluded: the reference is the normalized first truthy value in
bucket order; the bucket-wide error is raised exactly when some further
truthy value normalizes differently from that reference (which forces at
least two truthy values); a bucket with at most one truthy value is never
marked by the consistency rule. -/
theorem claim_C10_consistency_reference (bucket : List WalkerByIdResult) :
    ((truthyValues bucket).length ≤ 1 → consistencyStep bucket = bucket)
    ∧ (∀ v0 vs, truthyValues bucket = v0 :: vs →
        ((∃ v ∈ vs, strippedString v ≠ strippedString v0) →
            ∀ o ∈ validateBucket bucket,
              o.state = .error ∧ o.error = some consistencyMessage)
        ∧ ((∀ v ∈ vs, strippedString v = strippedString v0) →
            consistencyStep bucket = bucket)) := by
  refine ⟨consistency_skipped_of_short, ?_⟩
  intro v0 vs htv
  constructor
  · intro hdiff
    have hne : vs ≠ [] := by
      obtain ⟨v, hv, -⟩ := hdiff
      intro h
      subst h
      simp at hv
    exact validateBucket_all_error htv hne hdiff
  · exact consistency_skipped_of_same htv

/-- Witness for C10 at a concrete bucket: `bucketC1` has truthy values
`["a", "a"]`, which agree, so the consistency rule marks nothing. -/
theorem claim_C10_witness : consistencyStep bucketC1 = bucketC1 :=
  ((claim_C10_consistency_reference bucketC1).2 "a" ["a"] (by decide)).2 (by decide)

/-- C1 counterexample: in `bucketC1` (held under `id1` by `biC1`), the
first occurrence's value is the empty string, whose normalization differs
from the other occurrences' `"a"`; the claim as stated then demands every
occurrence of the validated bucket be in `error` state, but the code
compares only the truthy values (`["a", "a"]`, all equal) and marks
nothing. -/
theorem claim_C1_counterexample :
    2 ≤ bucketC1.length
    ∧ bucketC1.head? = some occEmptyVal
    ∧ (∃ o ∈ bucketC1, o.value.map strippedString ≠ occEmptyVal.value.map strippedString)
    ∧ ¬(∀ o ∈ validatedResultsById biC1 "id1",
        o.state = .error ∧ o.error = some consistencyMessage) := by
  refine ⟨by decide, by decide, by decide, by decide⟩

/-- C1 (amended): for a bucket with at least two truthy (non-absent,
non-empty) values, if any truthy value normalizes differently from the
first truthy value, every occurrence of the validated bucket — including
valueless ones — is overwritten with `error` and the fixed message; if all
truthy values normalize like the first truthy value, the consistency rule
marks no occurrence. -/
theorem claim_C1_amended (bucket : List WalkerByIdResult) (v0 v1 : String)
    (vs : List String) (htv : truthyValues bucket = v0 :: v1 :: vs) :
    ((∃ v ∈ v1 :: vs, strippedString v ≠ strippedString v0) →
        ∀ o ∈ validateBucket bucket,
          o.state = .error ∧ o.error = some consistencyMessage)
    ∧ ((∀ v ∈ v1 :: vs, strippedString v = strippedString v0) →
        consistencyStep bucket = bucket) :=
  ⟨fun hdiff => validateBucket_all_error htv (by simp) hdiff,
   consistency_skipped_of_same htv⟩

/-- Witness for the amended C1 at a concrete bucket: `bucketDiff` holds
truthy values `"x"` and `"y"`, which normalize differently, so its first
occurrence comes out of validation in `error` state with the fixed
message. -/
theorem claim_C1_amended_witness :
    (markError occX).state = .error ∧ (markError occX).error = some consistencyMessage :=
  (claim_C1_amended bucketDiff "x" "y" [] (by decide)).1 (by decide)
    (markError occX) (by decide)

/-- C4: after the consistency step, an occurrence still in `success` state
whose truthy value contains `<` is escalated to `warning` with the fixed
message; occurrences not in `success` state, occurrences without a value,
and occurrences whose value has no `<` are left unchanged by the shape
rule; and an occurrence that enters validation in a non-`success` state
never comes out in `success` state. -/
theorem claim_C4_html_escalation (l : List WalkerByIdResult) (i : Nat)
    (o : WalkerByIdResult) (hme : (consistencyStep l)[i]? = some o) :
    (o.state = .success → ∀ v, o.value = some v → v ≠ "" →
        v.data.contains '<' = true →
        (validateBucket l)[i]?
          = some { o with state := .warning, error := some htmlMessage })
    ∧ (o.state ≠ .success → (validateBucket l)[i]? = some o)
    ∧ (o.value = none → (validateBucket l)[i]? = some o)
    ∧ (∀ v, o.value = some v → v.data.contains '<' = false →
        (validateBucket l)[i]? = some o)
    ∧ (∀ o0, l[i]? = some o0 → o0.state ≠ .success →
        ∀ o2, (validateBucket l)[i]? = some o2 → o2.state ≠ .success) := by
  have hv : (validateBucket l)[i]? = some (htmlEscalate o) := by
    rw [validateBucket, htmlStep, List.getElem?_map, hme]
    rfl
  refine ⟨?_, ?_, ?_, ?_, ?_⟩
  · intro hs v hval hne hct
    have hmem : '<' ∈ v.data := by simpa using hct
    rw [hv]
    simp [htmlEscalate, hs, hval, hne, hmem]
  · intro hs
    rw [hv, htmlEscalate_of_not_success hs]
  · intro hval
    rw [hv]
    simp [htmlEscalate, hval]
  · intro v hval hct
    have hmem : '<' ∉ v.data := by simpa using hct
    rw [hv]
    simp [htmlEscalate, hval, hmem]
  · intro o0 ho0 hs0 o2 ho2
    rcases consistencyStep_cases l with hc | hc
    · rw [hc] at hme
      rw [ho0] at hme
      obtain rfl : o = o0 := by
        injection hme with h
        exact h.symm
      rw [hv, htmlEscalate_of_not_success hs0] at ho2
      obtain rfl : o2 = o := by
        injection ho2 with h
        exact h.symm
      exact hs0
    · rw [hc, List.getElem?_map, ho0] at hme
      obtain rfl : o = markError o0 := by
        simpa using hme.symm
      rw [hv, htmlEscalate_of_not_success (by simp)] at ho2
      obtain rfl : o2 = markError o0 := by
        injection ho2 with h
        exact h.symm
      simp

/-- Witness for C4 at a concrete bucket: the lone `success` occurrence
`occHtml` with value `"<b>Hello</b>"` becomes `warning` with the fixed
message. -/
theorem claim_C4_witness :
    (validateBucket lHtml)[0]?
      = some { occHtml with state := .warning, error := some htmlMessage } :=
  (claim_C4_html_escalation lHtml 0 occHtml (by decide)).1 (by decide)
    "<b>Hello</b>" (by decide) (by decide) (by decide)

/-! ## Lemmas about the view updates -/

@[simp] lemma tagOcc_toWalkerResult (uri : String) (r : WalkerResult) :
    (tagOcc uri r).toWalkerResult = r := rfl

@[simp] lemma tagOcc_file (uri : String) (r : WalkerResult) :
    (tagOcc uri r).file = uri := rfl

@[simp] lemma tagOcc_id (uri : String) (r : WalkerResult) :
    (tagOcc uri r).id = r.id := rfl

lemma lookupFile_mapSet (m : ByFileView) (u d : String) (v : List WalkerResult) :
    lookupFile (mapSet m u v) d = if d = u then some v else lookupFile m d := by
  induction m with
  | nil =>
    simp only [mapSet, lookupFile]
    by_cases h : u = d
    · subst h
      simp
    · rw [if_neg h, if_neg (fun h2 : d = u => h h2.symm)]
  | cons e rest ih =>
    obtain ⟨k, w⟩ := e
    simp only [mapSet]
    by_cases hk : k = u
    · subst hk
      rw [if_pos rfl]
      simp only [lookupFile]
      by_cases hd : k = d
      · subst hd
        simp
      · rw [if_neg hd, if_neg (fun h2 : d = k => hd h2.symm), if_neg hd]
    · rw [if_neg hk]
      simp only [lookupFile, ih]
      by_cases hd : k = d
      · subst hd
        rw [if_pos rfl, if_neg (fun h2 : k = u => hk h2), if_pos rfl]
      · rw [if_neg hd]
        by_cases hu : d = u
        · rw [if_pos hu, if_pos hu]
        · rw [if_neg hu, if_neg hu, if_neg hd]

lemma mapSet_mapSet (m : ByFileView) (u : String) (v w : List WalkerResult) :
    mapSet (mapSet m u v) u w = mapSet m u w := by
  induction m with
  | nil => simp [mapSet]
  | cons e rest ih =>
    obtain ⟨k, x⟩ := e
    by_cases hk : k = u <;> simp [mapSet, hk, ih]

/-- Inserting extracted occurrences appends, to each bucket, the tagged
id-matching occurrences in order. -/
lemma addResults_apply (uri : String) :
    ∀ (rs : List WalkerResult) (bi : ByIdView) (k : String),
      addResults bi uri rs k
        = bi k ++ (rs.filter (fun r => r.id = k)).map (tagOcc uri) := by
  intro rs
  induction rs with
  | nil => intro bi k; simp [addResults]
  | cons r rest ih =>
    intro bi k
    have hstep : addResults bi uri (r :: rest) = addResults (addToBucket bi uri r) uri rest := by
      simp [addResults]
    rw [hstep, ih]
    by_cases hk : r.id = k
    · subst hk
      rw [List.filter_cons_of_pos (by simp)]
      simp [addToBucket]
    · rw [addToBucket]
      rw [if_neg (fun h : k = r.id => hk h.symm)]
      rw [List.filter_cons_of_neg (by simpa using hk)]

lemma removeFirstByFile_cons_pos {o : WalkerByIdResult} {uri : String}
    (l : List WalkerByIdResult) (h : o.file = uri) :
    removeFirstByFile uri (o :: l) = l := by
  simp [removeFirstByFile, h]

lemma removeFirstByFile_cons_neg {o : WalkerByIdResult} {uri : String}
    (l : List WalkerByIdResult) (h : ¬ o.file = uri) :
    removeFirstByFile uri (o :: l) = o :: removeFirstByFile uri l := by
  simp [removeFirstByFile, h]

lemma iterate_removeFirstByFile_cons_neg {o : WalkerByIdResult} {uri : String}
    (h : ¬ o.file = uri) :
    ∀ (n : Nat) (l : List WalkerByIdResult),
      (removeFirstByFile uri)^[n] (o :: l) = o :: (removeFirstByFile uri)^[n] l := by
  intro n
  induction n with
  | zero => intro l; simp
  | succ n ih =>
    intro l
    rw [Function.iterate_succ_apply, Function.iterate_succ_apply,
      removeFirstByFile_cons_neg l h, ih]

/-- Removing a first `uri`-owned record exactly as many times as there are
`uri`-owned records removes exactly those records. -/
lemma iterate_removeFirstByFile (uri : String) :
    ∀ l : List WalkerByIdResult,
      (removeFirstByFile uri)^[l.countP (fun o => o.file = uri)] l
        = l.filter (fun o => ¬ o.file = uri) := by
  intro l
  induction l with
  | nil => simp
  | cons o rest ih =>
    by_cases h : o.file = uri
    · rw [List.countP_cons_of_pos _ _ (by simpa using h), Function.iterate_succ_apply,
        removeFirstByFile_cons_pos rest h, ih, List.filter_cons]
      simp [h]
    · rw [List.countP_cons_of_neg _ _ (by simpa using h),
        iterate_removeFirstByFile_cons_neg h, ih, List.filter_cons]
      simp [h]

/-- The removal loop applies `removeFirstByFile` to each bucket once per
old occurrence of that identifier. -/
lemma removeResults_apply (uri : String) :
    ∀ (old : List WalkerResult) (bi : ByIdView) (k : String),
      removeResults bi uri old k
        = (removeFirstByFile uri)^[(old.filter (fun r => r.id = k)).length] (bi k) := by
  intro old
  induction old with
  | nil => intro bi k; simp [removeResults]
  | cons r rest ih =>
    intro bi k
    have hstep : removeResults bi uri (r :: rest)
        = removeResults (removeBucketOcc bi uri r) uri rest := by
      simp [removeResults]
    rw [hstep, ih]
    by_cases hk : r.id = k
    · subst hk
      rw [List.filter_cons_of_pos (by simp), List.length_cons,
        Function.iterate_succ_apply]
      have hb : removeBucketOcc bi uri r r.id = removeFirstByFile uri (bi r.id) := by
        simp [removeBucketOcc]
      rw [hb]
    · rw [List.filter_cons_of_neg (by simpa using hk)]
      have hb : removeBucketOcc bi uri r k = bi k := by
        rw [removeBucketOcc, if_neg (fun h : k = r.id => hk h.symm)]
      rw [hb]

/-! ## The cross-view invariant -/

lemma corresponds_empty : Corresponds [] (fun _ => []) := by
  constructor
  · intro k d
    simp [lookupFile]
  · intro k o ho
    simp at ho

/-- Tagged occurrences all carry the tagging document. -/
lemma filter_file_map_tagOcc_self (uri : String) (rl : List WalkerResult) :
    (rl.map (tagOcc uri)).filter (fun o => o.file = uri) = rl.map (tagOcc uri) := by
  rw [List.filter_eq_self]
  intro a ha
  obtain ⟨r, -, rfl⟩ := List.mem_map.mp ha
  simp

lemma filter_file_map_tagOcc_ne {uri d : String} (h : ¬ d = uri)
    (rl : List WalkerResult) :
    (rl.map (tagOcc uri)).filter (fun o => o.file = d) = [] := by
  rw [List.filter_eq_nil_iff]
  intro a ha
  obtain ⟨r, -, rfl⟩ := List.mem_map.mp ha
  simp only [tagOcc_file, decide_eq_true_eq]
  exact fun e => h e.symm

lemma filter_file_of_filter_not (uri : String) (l : List WalkerByIdResult) :
    (l.filter (fun o => ¬ o.file = uri)).filter (fun o => o.file = uri) = [] := by
  rw [List.filter_eq_nil_iff]
  intro a ha
  simp only [List.mem_filter, decide_eq_true_eq] at ha
  simp [ha.2]

lemma filter_file_of_filter_not_ne {uri d : String} (h : ¬ d = uri)
    (l : List WalkerByIdResult) :
    (l.filter (fun o => ¬ o.file = uri)).filter (fun o => o.file = d)
      = l.filter (fun o => o.file = d) := by
  rw [List.filter_filter]
  apply List.filter_congr
  intro a ha
  by_cases hf : a.file = d
  · simp [hf, fun e : d = uri => h e]
  · simp [hf]

lemma filter_not_file_idem (uri : String) (l : List WalkerByIdResult) :
    (l.filter (fun o => ¬ o.file = uri)).filter (fun o => ¬ o.file = uri)
      = l.filter (fun o => ¬ o.file = uri) := by
  rw [List.filter_filter]
  apply List.filter_congr
  intro a ha
  by_cases hf : a.file = uri <;> simp [hf]

lemma map_toW_map_tagOcc (uri : String) (rl : List WalkerResult) :
    (rl.map (tagOcc uri)).map (fun o => o.toWalkerResult) = rl := by
  rw [List.map_map]
  simp [Function.comp_def]

/-- Under the invariant, the number of `uri`-owned records of bucket `k`
equals the number of id-`k` occurrences in `uri`'s old registry. -/
lemma countP_file_of_corresponds {bf : ByFileView} {bi : ByIdView}
    (hc : Corresponds bf bi) (uri k : String) :
    (bi k).countP (fun o => o.file = uri)
      = (((lookupFile bf uri).getD []).filter (fun r => r.id = k)).length := by
  have h := (hc.1 k uri).length_eq
  rw [List.length_map] at h
  rw [List.countP_eq_length_filter]
  exact h

/-- The bucket contents after a save update: the bucket stripped of every
`uri`-owned record, with the fresh id-matching occurrences appended. -/
lemma onDocumentSave_bi_apply {bf : ByFileView} {bi : ByIdView}
    (hc : Corresponds bf bi) (uri : String) (results : List WalkerResult)
    (k : String) :
    (onDocumentSave bf bi uri results).2 k
      = (bi k).filter (fun o => ¬ o.file = uri)
        ++ (results.filter (fun r => r.id = k)).map (tagOcc uri) := by
  show addResults (removeResults bi uri ((lookupFile bf uri).getD [])) uri results k
      = _
  rw [addResults_apply, removeResults_apply, ← countP_file_of_corresponds hc uri k,
    iterate_removeFirstByFile]

/-- The save update preserves the cross-view invariant. -/
lemma corresponds_onDocumentSave {bf : ByFileView} {bi : ByIdView}
    (hc : Corresponds bf bi) (uri : String) (results : List WalkerResult) :
    Corresponds (onDocumentSave bf bi uri results).1
      (onDocumentSave bf bi uri results).2 := by
  constructor
  · intro k d
    rw [onDocumentSave_bi_apply hc uri results k]
    have hbf : (onDocumentSave bf bi uri results).1 = mapSet bf uri results := rfl
    rw [hbf, List.filter_append, List.map_append, lookupFile_mapSet]
    by_cases hd : d = uri
    · subst hd
      rw [if_pos rfl, filter_file_of_filter_not, filter_file_map_tagOcc_self,
        map_toW_map_tagOcc]
      simp
    · rw [if_neg hd, filter_file_of_filter_not_ne hd, filter_file_map_tagOcc_ne hd]
      simpa using hc.1 k d
  · intro k o ho
    rw [onDocumentSave_bi_apply hc uri results k] at ho
    rcases List.mem_append.mp ho with h1 | h1
    · exact hc.2 k o (List.mem_of_mem_filter h1)
    · obtain ⟨r, hr, rfl⟩ := List.mem_map.mp h1
      have := List.mem_filter.mp hr
      simpa using this.2

/-- A document unseen by both views contributes fresh bucket contents under
its own uri when scanned. -/
lemma corresponds_scanFile {acc : ByFileView × ByIdView}
    {f : String × List WalkerResult} (hc : Corresponds acc.1 acc.2)
    (hfresh : lookupFile acc.1 f.1 = none) :
    Corresponds (scanFile acc f).1 (scanFile acc f).2 := by
  rw [scanFile]
  split
  · constructor
    · intro k d
      show ((addResults acc.2 f.1 f.2 k).filter (fun o => o.file = d)).map
          (fun o => o.toWalkerResult) |>.Perm
          (((lookupFile (mapSet acc.1 f.1 f.2) d).getD []).filter (fun r => r.id = k))
      rw [addResults_apply, List.filter_append, List.map_append, lookupFile_mapSet]
      have hnil : (acc.2 k).filter (fun o => o.file = f.1) = [] := by
        have h := hc.1 k f.1
        rw [hfresh] at h
        simp only [Option.getD_none, List.filter_nil] at h
        exact List.map_eq_nil_iff.mp h.eq_nil
      by_cases hd : d = f.1
      · subst hd
        rw [if_pos rfl, hnil, filter_file_map_tagOcc_self, map_toW_map_tagOcc]
        simp
      · rw [if_neg hd, filter_file_map_tagOcc_ne hd]
        simpa using hc.1 k d
    · intro k o ho
      replace ho : o ∈ addResults acc.2 f.1 f.2 k := ho
      rw [addResults_apply] at ho
      rcases List.mem_append.mp ho with h1 | h1
      · exact hc.2 k o h1
      · obtain ⟨r, hr, rfl⟩ := List.mem_map.mp h1
        have := List.mem_filter.mp hr
        simpa using this.2
  · exact hc

/-- The scan fold preserves the invariant, given pairwise-distinct document
uris none of which is already present. -/
lemma corresponds_scan_fold :
    ∀ (files : List (String × List WalkerResult)) (acc : ByFileView × ByIdView),
      Corresponds acc.1 acc.2 →
      (∀ u ∈ files.map Prod.fst, lookupFile acc.1 u = none) →
      (files.map Prod.fst).Nodup →
      Corresponds (files.foldl scanFile acc).1 (files.foldl scanFile acc).2 := by
  intro files
  induction files with
  | nil =>
    intro acc hc _ _
    exact hc
  | cons f rest ih =>
    intro acc hc hfresh hnodup
    rw [List.foldl_cons]
    have hf1 : lookupFile acc.1 f.1 = none := hfresh f.1 (by simp)
    apply ih (scanFile acc f) (corresponds_scanFile hc hf1)
    · intro u hu
      have hne : u ≠ f.1 := by
        rw [List.map_cons, List.nodup_cons] at hnodup
        intro e
        exact hnodup.1 (e ▸ hu)
      have hu0 : lookupFile acc.1 u = none := hfresh u (by simp [hu])
      rw [scanFile]
      split
      · rw [lookupFile_mapSet, if_neg hne]
        exact hu0
      · exact hu0
    · rw [List.map_cons, List.nodup_cons] at hnodup
      exact hnodup.2

/-- The invariant holds for the initial scan result. -/
lemma corresponds_scanBuild (files : List (String × List WalkerResult))
    (hnodup : (files.map Prod.fst).Nodup) :
    Corresponds (scanBuild files).1 (scanBuild files).2 := by
  apply corresponds_scan_fold files ([], fun _ => []) corresponds_empty
  · intro u hu
    simp [lookupFile]
  · exact hnodup

/-- The invariant holds after the initial scan and any sequence of save
updates. -/
lemma corresponds_applySaves (s : ByFileView × ByIdView)
    (hc : Corresponds s.1 s.2) (saves : List (String × List WalkerResult)) :
    Corresponds (applySaves s saves).1 (applySaves s saves).2 := by
  induction saves generalizing s with
  | nil => exact hc
  | cons sv rest ih =>
    rw [applySaves, List.foldl_cons]
    exact ih _ (corresponds_onDocumentSave hc sv.1 sv.2)

/-- Equality of record counts across the two views, pointwise from the
invariant. -/
lemma count_map_toW (d : String) (l : List WalkerByIdResult)
    (hl : ∀ o ∈ l, o.file = d) (r : WalkerResult) :
    (l.map (fun o => o.toWalkerResult)).count r = l.count (tagOcc d r) := by
  induction l with
  | nil => simp
  | cons o rest ih =>
    have hfile : o.file = d := hl o (by simp)
    have hrest : ∀ o2 ∈ rest, o2.file = d := fun o2 ho2 => hl o2 (by simp [ho2])
    rw [List.map_cons, List.count_cons, List.count_cons, ih hrest]
    congr 1
    by_cases h : o.toWalkerResult = r
    · have he : o = tagOcc d r := by
        cases o with
        | mk tw file =>
          cases h
          cases hfile
          rfl
      simp [h, he]
    · have he : o ≠ tagOcc d r := fun e => h (by simp [e])
      simp [h, he]

/-- Under the invariant, an occurrence is stored `n` times for document `d`
in the by-file view exactly when its `d`-tagged record sits `n` times in
its identifier's bucket. -/
lemma corresponds_count {bf : ByFileView} {bi : ByIdView}
    (hc : Corresponds bf bi) (d : String) (r : WalkerResult) :
    ((lookupFile bf d).getD []).count r = (bi r.id).count (tagOcc d r) := by
  have h1 : (bi r.id).count (tagOcc d r)
      = ((bi r.id).filter (fun o => o.file = d)).count (tagOcc d r) := by
    rw [List.count_filter (by simp)]
  have h2 := ((hc.1 r.id d).count_eq r).symm
  rw [count_map_toW d _ (fun o ho => by
    simpa using (List.mem_filter.mp ho).2) r] at h2
  rw [h1, ← h2, List.count_filter (by simp)]

/-- In any scan result, every stored by-file value is nonempty. -/
lemma scan_values_nonempty :
    ∀ (files : List (String × List WalkerResult)) (acc : ByFileView × ByIdView),
      (∀ d rs, lookupFile acc.1 d = some rs → rs ≠ []) →
      ∀ d rs, lookupFile (files.foldl scanFile acc).1 d = some rs → rs ≠ [] := by
  intro files
  induction files with
  | nil =>
    intro acc hacc
    exact hacc
  | cons f rest ih =>
    intro acc hacc
    rw [List.foldl_cons]
    apply ih
    intro d rs hlk
    rw [scanFile] at hlk
    split at hlk
    · rename_i hlen
      rw [lookupFile_mapSet] at hlk
      split at hlk
      · obtain rfl : f.2 = rs := by injection hlk
        intro he
        rw [he] at hlen
        simp at hlen
      · exact hacc d rs hlk
    · exact hacc d rs hlk

/-! ## Claims about the view updates -/

/-- C2: after the initial scan and after every sequence of save updates,
the by-file and by-identifier views are two indexes over one logical
occurrence set: an occurrence `r` is stored `n` times for document `d` in
the by-file view exactly when its `d`-tagged record sits `n` times in the
bucket of its identifier; every record sits in the bucket of its own
identifier; and membership round-trips between the two views. -/
theorem claim_C2_views_bijective (files saves : List (String × List WalkerResult))
    (hnodup : (files.map Prod.fst).Nodup) :
    (∀ d r, ((lookupFile (applySaves (scanBuild files) saves).1 d).getD []).count r
        = ((applySaves (scanBuild files) saves).2 r.id).count (tagOcc d r))
    ∧ (∀ k o, o ∈ (applySaves (scanBuild files) saves).2 k → o.id = k)
    ∧ (∀ d r, r ∈ (lookupFile (applySaves (scanBuild files) saves).1 d).getD []
        ↔ tagOcc d r ∈ (applySaves (scanBuild files) saves).2 r.id) := by
  have hc := corresponds_applySaves _ (corresponds_scanBuild files hnodup) saves
  refine ⟨fun d r => corresponds_count hc d r, hc.2, fun d r => ?_⟩
  rw [← List.count_pos_iff, ← List.count_pos_iff, corresponds_count hc d r]

/-- Witness for C2 at a concrete one-document corpus. -/
theorem claim_C2_witness :
    ((lookupFile (applySaves (scanBuild filesW) []).1 "file:a.html").getD []).count rW
      = ((applySaves (scanBuild filesW) []).2 rW.id).count (tagOcc "file:a.html" rW) :=
  (claim_C2_views_bijective filesW [] (by decide)).1 "file:a.html" rW

/-- C3 counterexample: starting from the scan of a one-document corpus,
saving that document with an empty fresh occurrence sequence leaves the
document's key in the by-file view, mapped to the empty sequence — the
claim demands the key be removed (and that every present key map to a
non-empty sequence). -/
theorem claim_C3_counterexample :
    lookupFile (onDocumentSave (scanBuild filesW).1 (scanBuild filesW).2
      "file:a.html" []).1 "file:a.html" = some [] := by decide

/-- C3 (amended): after the initial scan, a document whose extraction
produced zero occurrences is absent from the by-file view (every stored
value is non-empty); but a save update sets the document's key to the
fresh sequence unconditionally, so a save whose fresh sequence is empty
stores the empty sequence under the key instead of removing it. -/
theorem claim_C3_amended :
    (∀ (files : List (String × List WalkerResult)) (d : String)
        (rs : List WalkerResult),
      lookupFile (scanBuild files).1 d = some rs → rs ≠ [])
    ∧ ∀ (bf : ByFileView) (bi : ByIdView) (uri : String)
        (results : List WalkerResult),
      lookupFile (onDocumentSave bf bi uri results).1 uri = some results := by
  constructor
  · intro files d rs
    apply scan_values_nonempty files ([], fun _ => [])
    intro d2 rs2 h
    simp [lookupFile] at h
  · intro bf bi uri results
    show lookupFile (mapSet bf uri results) uri = some results
    rw [lookupFile_mapSet, if_pos rfl]

/-- Witness for the amended C3: concrete instances of both conjuncts. -/
theorem claim_C3_amended_witness :
    ([rW] : List WalkerResult) ≠ []
    ∧ lookupFile (onDocumentSave [] (fun _ => []) "file:a.html" []).1
        "file:a.html" = some [] :=
  ⟨claim_C3_amended.1 filesW "file:a.html" [rW] (by decide),
   claim_C3_amended.2 [] (fun _ => []) "file:a.html" []⟩

/-- C8: from any state satisfying the cross-view invariant (all states the
engine publishes satisfy it), applying the save update twice with the same
document and the same extracted occurrence sequence produces views with
exactly the contents of applying it once. -/
theorem claim_C8_idempotent (bf : ByFileView) (bi : ByIdView) (uri : String)
    (results : List WalkerResult) (hc : Corresponds bf bi) :
    (onDocumentSave (onDocumentSave bf bi uri results).1
        (onDocumentSave bf bi uri results).2 uri results).1
      = (onDocumentSave bf bi uri results).1
    ∧ ∀ k, (onDocumentSave (onDocumentSave bf bi uri results).1
        (onDocumentSave bf bi uri results).2 uri results).2 k
      = (onDocumentSave bf bi uri results).2 k := by
  have hc1 := corresponds_onDocumentSave hc uri results
  constructor
  · show mapSet (mapSet bf uri results) uri results = mapSet bf uri results
    exact mapSet_mapSet bf uri results results
  · intro k
    rw [onDocumentSave_bi_apply hc1 uri results k,
      onDocumentSave_bi_apply hc uri results k]
    rw [List.filter_append, filter_not_file_idem]
    have htag : ((results.filter (fun r => r.id = k)).map (tagOcc uri)).filter
        (fun o => ¬ o.file = uri) = [] := by
      rw [List.filter_eq_nil_iff]
      intro a ha
      obtain ⟨r, -, rfl⟩ := List.mem_map.mp ha
      simp
    rw [htag, List.append_nil]

/-- Witness for C8 at a concrete state (the empty snapshot satisfies the
invariant). -/
theorem claim_C8_witness :
    (onDocumentSave (onDocumentSave [] (fun _ => []) "file:a.html" [rW]).1
        (onDocumentSave [] (fun _ => []) "file:a.html" [rW]).2
        "file:a.html" [rW]).2 "welcome"
      = (onDocumentSave [] (fun _ => []) "file:a.html" [rW]).2 "welcome" :=
  (claim_C8_idempotent [] (fun _ => []) "file:a.html" [rW] corresponds_empty).2
    "welcome"

/-! ## Claims about the engine state machine and the readiness gate -/

/-- C6 counterexample: a failing initial scan publishes nothing, but it
leaves the engine in state `initializing` — not `uninitialized` as the
claim states — and a subsequent `initialize()` call is then a no-op that
publishes nothing, so the index cannot be rebuilt. -/
theorem claim_C6_counterexample :
    (initializeStep engine0 .fail).2 = false
    ∧ (initializeStep engine0 .fail).1.state = .initializing
    ∧ (initializeStep engine0 .fail).1.state ≠ .uninitialized
    ∧ initializeStep (initializeStep engine0 .fail).1 (.ok filesW)
        = ((initializeStep engine0 .fail).1, false) :=
  ⟨rfl, rfl, by decide, rfl⟩

/-- C6 (amended): if the initial scan fails, no snapshot is published and
the failure is swallowed (logged, not thrown); the engine's state remains
`initializing`, so every subsequent `initialize()` call — the state now
being different from `uninitialized` — is a no-op that publishes nothing
and leaves the engine unchanged: the index is never rebuilt by calling
`initialize()` again. -/
theorem claim_C6_amended (e : Engine) :
    ((initializeStep e .fail).2 = false)
    ∧ (e.state = .uninitialized →
        (initializeStep e .fail).1 = { e with state := .initializing })
    ∧ (e.state ≠ .uninitialized →
        ∀ oc, initializeStep e oc = (e, false)) := by
  refine ⟨?_, ?_, ?_⟩
  · rw [initializeStep.eq_def]
    split
    · rfl
    · rfl
  · intro hs
    rw [initializeStep.eq_def, if_neg (by simp [hs])]
  · intro hs oc
    rw [initializeStep.eq_def, if_pos hs]

/-- Witness for the amended C6: a concrete engine stuck in `initializing`
on which a fresh `initialize()` call changes nothing. -/
theorem claim_C6_amended_witness :
    initializeStep { state := .initializing, byFile := none, byId := none } (.ok filesW)
      = ({ state := .initializing, byFile := none, byId := none }, false) :=
  (claim_C6_amended { state := .initializing, byFile := none, byId := none }).2.2
    (by decide) (.ok filesW)

/-- The closed form `deliverTick` is exactly the semantics of the readiness
gate's per-notification `setInterval`: for a save buffered at `a` before
the engine initializes at `T`, the delivery happens at a tick `a + 1000·j`
(`j ≥ 1`), at or after `T`, and at the least such tick (the callback
delivers on its first run at which the state is `initialized`, then clears
its interval). -/
lemma deliverTick_spec (a T : Nat) (h : a < T) :
    T ≤ deliverTick a T
    ∧ (∃ j, 1 ≤ j ∧ deliverTick a T = a + 1000 * j)
    ∧ ∀ j, 1 ≤ j → T ≤ a + 1000 * j → deliverTick a T ≤ a + 1000 * j := by
  have hq : deliverTick a T = a + 1000 * ((T - a + 999) / 1000) := rfl
  refine ⟨?_, ⟨(T - a + 999) / 1000, ?_, rfl⟩, ?_⟩
  · rw [hq]
    omega
  · omega
  · intro j hj hT
    rw [hq]
    have : (T - a + 999) / 1000 ≤ j := by omega
    omega

/-- C9 counterexample: with the scan finishing at `T = 1050` ms, a save
buffered at `0` ms is delivered at its next tick `2000` ms, while a save
buffered later, at `100` ms, is delivered earlier, at `1100` ms — the
retry timers do not preserve arrival order. -/
theorem claim_C9_counterexample :
    (0 : Nat) < 100 ∧ (0 : Nat) < 1050 ∧ (100 : Nat) < 1050
    ∧ deliverTick 100 1050 < deliverTick 0 1050
    ∧ deliverTick 0 1050 = 2000 ∧ deliverTick 100 1050 = 1100 := by
  decide

/-- C9 (amended): a save notification buffered at time `a` while the
engine is not yet initialized (`a < T`) is never dropped and is applied
exactly once, at the first tick of its own one-second retry interval at or
after the initialization time `T`; but several buffered notifications are
delivered in the order of those first post-initialization ticks, which
need not be their arrival order. -/
theorem claim_C9_buffered_delivery (a T : Nat) (h : a < T) :
    T ≤ deliverTick a T
    ∧ (∃ j, 1 ≤ j ∧ deliverTick a T = a + 1000 * j)
    ∧ ∀ j, 1 ≤ j → T ≤ a + 1000 * j → deliverTick a T ≤ a + 1000 * j :=
  deliverTick_spec a T h

/-- Witness for the amended C9: the save buffered at `100` ms is delivered
at or after the initialization time `1050` ms. -/
theorem claim_C9_witness : 1050 ≤ deliverTick 100 1050 :=
  (claim_C9_buffered_delivery 100 1050 (by decide)).1

/-! ## Lemmas about the heap model -/

lemma removeFirstByFile_of_none {uri : String} :
    ∀ {l : List WalkerByIdResult}, (∀ o ∈ l, ¬ (o.file == uri) = true) →
      removeFirstByFile uri l = l := by
  intro l
  induction l with
  | nil => intro h; rfl
  | cons o rest ih =>
    intro h
    have ho : ¬ o.file = uri := by simpa using h o (by simp)
    rw [removeFirstByFile_cons_neg _ ho, ih (fun o2 h2 => h o2 (by simp [h2]))]

lemma eraseIdx_of_findIdx? (uri : String) :
    ∀ (l : List WalkerByIdResult) (i : Nat),
      l.findIdx? (fun o => o.file == uri) = some i →
      l.eraseIdx i = removeFirstByFile uri l := by
  intro l
  induction l with
  | nil =>
    intro i h
    simp at h
  | cons o rest ih =>
    intro i h
    rw [List.findIdx?_cons] at h
    by_cases ho : (o.file == uri) = true
    · rw [if_pos ho] at h
      obtain rfl : i = 0 := by
        injection h with h2
        exact h2.symm
      rw [List.eraseIdx_cons_zero, removeFirstByFile_cons_pos _ (by simpa using ho)]
    · rw [if_neg ho, List.findIdx?_succ] at h
      obtain ⟨j, hj, rfl⟩ :
          ∃ j, rest.findIdx? (fun o => o.file == uri) = some j ∧ i = j + 1 := by
        cases hfi : rest.findIdx? (fun o => o.file == uri) with
        | none =>
          rw [hfi] at h
          simp at h
        | some j =>
          rw [hfi] at h
          simp at h
          exact ⟨j, rfl, h.symm⟩
      rw [List.eraseIdx_cons_succ,
        removeFirstByFile_cons_neg _ (by simpa using ho), ih j hj]

lemma ptrLookup_eq_none_iff {m : PtrMap} {k : String} :
    ptrLookup m k = none ↔ k ∉ m.map Prod.fst := by
  induction m with
  | nil => simp [ptrLookup]
  | cons e rest ih =>
    obtain ⟨k2, p2⟩ := e
    rw [ptrLookup]
    by_cases h2 : k2 = k
    · subst h2
      simp
    · rw [if_neg h2, ih]
      simp only [List.map_cons, List.mem_cons]
      constructor
      · intro hk h3
        rcases h3 with h3 | h3
        · exact h2 h3.symm
        · exact hk h3
      · intro hk h3
        exact hk (Or.inr h3)

lemma ptrLookup_ptrDelete_ne {m : PtrMap} {d k : String} (h : ¬ k = d) :
    ptrLookup (ptrDelete m d) k = ptrLookup m k := by
  induction m with
  | nil => rfl
  | cons e rest ih =>
    obtain ⟨k2, p2⟩ := e
    rw [ptrDelete]
    by_cases h2 : k2 = d
    · subst h2
      rw [if_pos rfl, ptrLookup, if_neg (fun e : k2 = k => h (e ▸ rfl))]
    · rw [if_neg h2, ptrLookup, ptrLookup, ih]

lemma ptrLookup_ptrDelete_self {m : PtrMap} (hnd : (m.map Prod.fst).Nodup)
    (d : String) : ptrLookup (ptrDelete m d) d = none := by
  induction m with
  | nil => rfl
  | cons e rest ih =>
    obtain ⟨k2, p2⟩ := e
    rw [List.map_cons, List.nodup_cons] at hnd
    rw [ptrDelete]
    by_cases h2 : k2 = d
    · subst h2
      rw [if_pos rfl]
      exact ptrLookup_eq_none_iff.mpr hnd.1
    · rw [if_neg h2, ptrLookup, if_neg h2, ih hnd.2]

lemma ptrDelete_keys_sublist (m : PtrMap) (d : String) :
    ((ptrDelete m d).map Prod.fst).Sublist (m.map Prod.fst) := by
  induction m with
  | nil => simp [ptrDelete]
  | cons e rest ih =>
    obtain ⟨k2, p2⟩ := e
    rw [ptrDelete]
    by_cases h2 : k2 = d
    · rw [if_pos h2]
      exact List.sublist_cons_self _ _
    · rw [if_neg h2, List.map_cons, List.map_cons]
      exact ih.cons₂ k2

lemma ptrLookup_ptrSet_self (m : PtrMap) (k : String) (p : Nat) :
    ptrLookup (ptrSet m k p) k = some p := by
  induction m with
  | nil => simp [ptrSet, ptrLookup]
  | cons e rest ih =>
    obtain ⟨k2, p2⟩ := e
    rw [ptrSet]
    by_cases h2 : k2 = k
    · rw [if_pos h2, ptrLookup, if_pos rfl]
    · rw [if_neg h2, ptrLookup, if_neg h2, ih]

lemma ptrLookup_ptrSet_ne (m : PtrMap) {k k2 : String} (h : ¬ k2 = k) (p : Nat) :
    ptrLookup (ptrSet m k p) k2 = ptrLookup m k2 := by
  induction m with
  | nil =>
    show (if k = k2 then some p else ptrLookup [] k2) = ptrLookup [] k2
    rw [if_neg (fun e : k = k2 => h e.symm)]
  | cons e rest ih =>
    obtain ⟨k3, p3⟩ := e
    rw [ptrSet]
    by_cases h3 : k3 = k
    · subst h3
      rw [if_pos rfl, ptrLookup, ptrLookup, if_neg (fun e : k3 = k2 => h (e ▸ rfl))]
      rw [if_neg (fun e : k3 = k2 => h (e ▸ rfl))]
    · rw [if_neg h3, ptrLookup, ptrLookup, ih]

lemma ptrSet_keys_of_fresh {m : PtrMap} {k : String}
    (h : k ∉ m.map Prod.fst) (p : Nat) :
    (ptrSet m k p).map Prod.fst = m.map Prod.fst ++ [k] := by
  induction m with
  | nil => simp [ptrSet]
  | cons e rest ih =>
    obtain ⟨k2, p2⟩ := e
    rw [List.map_cons] at h
    rw [ptrSet, if_neg (fun e2 : k2 = k => (by simp [e2] at h))]
    rw [List.map_cons, List.map_cons, ih (fun h2 => h (by simp [h2]))]
    rfl

lemma heapGet_heapSet_self {h : Heap} {p : Nat} (hp : p < (h : List _).length)
    (v : List WalkerByIdResult) : heapGet (heapSet h p v) p = v := by
  rw [heapGet, heapSet]
  simp [List.getElem?_set, hp]

lemma heapGet_heapSet_ne {h : Heap} {p q : Nat} (hne : ¬ p = q)
    (v : List WalkerByIdResult) : heapGet (heapSet h p v) q = heapGet h q := by
  rw [heapGet, heapSet, heapGet]
  simp [List.getElem?_set_ne hne]

lemma heapGet_append_self (h : Heap) (v : List WalkerByIdResult) :
    heapGet (h ++ [v]) (h : List _).length = v := by
  rw [heapGet]
  simp [List.getElem?_concat_length]

lemma heapGet_append_lt {h : Heap} {p : Nat} (hp : p < (h : List _).length)
    (v : List WalkerByIdResult) : heapGet (h ++ [v]) p = heapGet h p := by
  rw [heapGet, heapGet]
  simp [List.getElem?_append_left hp]

/-- One removal step of the heap model performs exactly one functional
bucket removal, preserving well-formedness. -/
lemma spliceRemove_step {h : Heap} {m : PtrMap} (hwf : HeapWF h m)
    (uri : String) (r : WalkerResult) :
    HeapWF (spliceRemove uri h m r).1 (spliceRemove uri h m r).2
    ∧ derefMap (spliceRemove uri h m r).1 (spliceRemove uri h m r).2
        = removeBucketOcc (derefMap h m) uri r := by
  obtain ⟨hval, hdis, hnd⟩ := hwf
  cases hlk : ptrLookup m r.id with
  | none =>
    have hs : spliceRemove uri h m r = (h, m) := by
      simp [spliceRemove, hlk]
    rw [hs]
    refine ⟨⟨hval, hdis, hnd⟩, ?_⟩
    funext k
    rw [removeBucketOcc]
    by_cases hk : k = r.id
    · rw [if_pos hk, hk]
      simp [derefMap, hlk, removeFirstByFile]
    · rw [if_neg hk]
  | some p =>
    have hp : p < (h : List _).length := hval r.id p hlk
    cases hfi : (heapGet h p).findIdx? (fun o => o.file == uri) with
    | none =>
      have hs : spliceRemove uri h m r = (h, m) := by
        simp [spliceRemove, hlk, hfi]
      rw [hs]
      refine ⟨⟨hval, hdis, hnd⟩, ?_⟩
      funext k
      rw [removeBucketOcc]
      by_cases hk : k = r.id
      · rw [if_pos hk, hk]
        have hde : derefMap h m r.id = heapGet h p := by
          simp [derefMap, hlk]
        rw [hde, removeFirstByFile_of_none
          (fun o ho => by simp [List.findIdx?_eq_none_iff.mp hfi o ho])]
      · rw [if_neg hk]
    | some i =>
      have he2 : (heapGet h p).eraseIdx i = removeFirstByFile uri (heapGet h p) :=
        eraseIdx_of_findIdx? uri (heapGet h p) i hfi
      have hs : spliceRemove uri h m r
          = (heapSet h p ((heapGet h p).eraseIdx i),
             if ((heapGet h p).eraseIdx i).length = 0 then ptrDelete m r.id
             else m) := by
        simp [spliceRemove, hlk, hfi]
      rw [hs]
      have hde0 : derefMap h m r.id = heapGet h p := by
        simp [derefMap, hlk]
      by_cases hlen : ((heapGet h p).eraseIdx i).length = 0
      · rw [if_pos hlen]
        have hnil : (heapGet h p).eraseIdx i = [] :=
          List.eq_nil_of_length_eq_zero hlen
        have hsub : ∀ k q, ptrLookup (ptrDelete m r.id) k = some q →
            ptrLookup m k = some q := by
          intro k q hq
          by_cases hk : k = r.id
          · rw [hk, ptrLookup_ptrDelete_self hnd] at hq
            exact absurd hq (by simp)
          · rwa [ptrLookup_ptrDelete_ne hk] at hq
        refine ⟨⟨?_, ?_, ?_⟩, ?_⟩
        · intro k q hq
          have := hval k q (hsub k q hq)
          simpa [heapSet] using this
        · intro k1 k2 q hne h1 h2
          exact hdis k1 k2 q hne (hsub k1 q h1) (hsub k2 q h2)
        · exact hnd.sublist (ptrDelete_keys_sublist m r.id)
        · funext k
          rw [removeBucketOcc]
          by_cases hk : k = r.id
          · rw [if_pos hk, hk, hde0, ← he2, hnil]
            simp [derefMap, ptrLookup_ptrDelete_self hnd]
          · rw [if_neg hk]
            cases hlk2 : ptrLookup m k with
            | none => simp [derefMap, ptrLookup_ptrDelete_ne hk, hlk2]
            | some q =>
              have hqp : ¬ p = q := fun e => hdis k r.id q hk hlk2 (e ▸ hlk)
              simp [derefMap, ptrLookup_ptrDelete_ne hk, hlk2,
                heapGet_heapSet_ne hqp]
      · rw [if_neg hlen]
        refine ⟨⟨?_, hdis, hnd⟩, ?_⟩
        · intro k q hq
          have := hval k q hq
          simpa [heapSet] using this
        · funext k
          rw [removeBucketOcc]
          by_cases hk : k = r.id
          · rw [if_pos hk, hk, hde0, ← he2]
            simp [derefMap, hlk, heapGet_heapSet_self hp]
          · rw [if_neg hk]
            cases hlk2 : ptrLookup m k with
            | none => simp [derefMap, hlk2]
            | some q =>
              have hqp : ¬ p = q := fun e => hdis k r.id q hk hlk2 (e ▸ hlk)
              simp [derefMap, hlk2, heapGet_heapSet_ne hqp]

/-- One insertion step of the heap model performs exactly one functional
bucket insertion, preserving well-formedness. -/
lemma pushAdd_step {h : Heap} {m : PtrMap} (hwf : HeapWF h m)
    (uri : String) (r : WalkerResult) :
    HeapWF (pushAdd uri h m r).1 (pushAdd uri h m r).2
    ∧ derefMap (pushAdd uri h m r).1 (pushAdd uri h m r).2
        = addToBucket (derefMap h m) uri r := by
  obtain ⟨hval, hdis, hnd⟩ := hwf
  cases hlk : ptrLookup m r.id with
  | some p =>
    have hp : p < (h : List _).length := hval r.id p hlk
    have hs : pushAdd uri h m r
        = (heapSet h p (heapGet h p ++ [tagOcc uri r]), m) := by
      simp [pushAdd, hlk]
    rw [hs]
    refine ⟨⟨?_, hdis, hnd⟩, ?_⟩
    · intro k q hq
      have := hval k q hq
      simpa [heapSet] using this
    · funext k
      rw [addToBucket]
      by_cases hk : k = r.id
      · rw [if_pos hk, hk]
        simp [derefMap, hlk, heapGet_heapSet_self hp]
      · rw [if_neg hk]
        cases hlk2 : ptrLookup m k with
        | none => simp [derefMap, hlk2]
        | some q =>
          have hqp : ¬ p = q := fun e => hdis k r.id q hk hlk2 (e ▸ hlk)
          simp [derefMap, hlk2, heapGet_heapSet_ne hqp]
  | none =>
    have hs : pushAdd uri h m r
        = (h ++ [[tagOcc uri r]], ptrSet m r.id (h : List _).length) := by
      simp [pushAdd, hlk]
    rw [hs]
    have hfresh : r.id ∉ m.map Prod.fst := ptrLookup_eq_none_iff.mp hlk
    refine ⟨⟨?_, ?_, ?_⟩, ?_⟩
    · intro k q hq
      by_cases hk : k = r.id
      · rw [hk, ptrLookup_ptrSet_self] at hq
        obtain rfl : (h : List _).length = q := by injection hq
        simp
      · rw [ptrLookup_ptrSet_ne m hk] at hq
        have := hval k q hq
        simp only [List.length_append, List.length_cons, List.length_nil]
        omega
    · intro k1 k2 q hne h1 h2
      by_cases hk1 : k1 = r.id
      · rw [hk1, ptrLookup_ptrSet_self] at h1
        obtain rfl : (h : List _).length = q := by injection h1
        rw [ptrLookup_ptrSet_ne m (fun e : k2 = r.id => hne (hk1.trans e.symm))] at h2
        exact absurd (hval k2 _ h2) (by omega)
      · rw [ptrLookup_ptrSet_ne m hk1] at h1
        by_cases hk2 : k2 = r.id
        · rw [hk2, ptrLookup_ptrSet_self] at h2
          obtain rfl : (h : List _).length = q := by injection h2
          exact absurd (hval k1 _ h1) (by omega)
        · rw [ptrLookup_ptrSet_ne m hk2] at h2
          exact hdis k1 k2 q hne h1 h2
    · rw [ptrSet_keys_of_fresh hfresh]
      simp [List.nodup_append, hnd, hfresh]
    · funext k
      rw [addToBucket]
      by_cases hk : k = r.id
      · rw [if_pos hk, hk]
        simp [derefMap, ptrLookup_ptrSet_self, heapGet_append_self, hlk]
      · rw [if_neg hk]
        cases hlk2 : ptrLookup m k with
        | none => simp [derefMap, ptrLookup_ptrSet_ne m hk, hlk2]
        | some q =>
          simp [derefMap, ptrLookup_ptrSet_ne m hk, hlk2,
            heapGet_append_lt (hval k q hlk2)]

/-- The whole removal loop of the heap model computes the functional
removal phase. -/
lemma removeFold_spec (uri : String) :
    ∀ (oldReg : List WalkerResult) (h : Heap) (m : PtrMap), HeapWF h m →
      HeapWF (oldReg.foldl (fun st r => spliceRemove uri st.1 st.2 r) (h, m)).1
          (oldReg.foldl (fun st r => spliceRemove uri st.1 st.2 r) (h, m)).2
      ∧ derefMap (oldReg.foldl (fun st r => spliceRemove uri st.1 st.2 r) (h, m)).1
          (oldReg.foldl (fun st r => spliceRemove uri st.1 st.2 r) (h, m)).2
        = removeResults (derefMap h m) uri oldReg := by
  intro oldReg
  induction oldReg with
  | nil =>
    intro h m hwf
    exact ⟨hwf, by simp [removeResults]⟩
  | cons r rest ih =>
    intro h m hwf
    rw [List.foldl_cons]
    obtain ⟨hwf1, hd1⟩ := spliceRemove_step hwf uri r
    obtain ⟨hwf2, hd2⟩ :=
      ih (spliceRemove uri h m r).1 (spliceRemove uri h m r).2 hwf1
    refine ⟨hwf2, ?_⟩
    rw [hd2, hd1]
    simp [removeResults]

/-- The whole insertion loop of the heap model computes the functional
insertion phase. -/
lemma addFold_spec (uri : String) :
    ∀ (results : List WalkerResult) (h : Heap) (m : PtrMap), HeapWF h m →
      HeapWF (results.foldl (fun st r => pushAdd uri st.1 st.2 r) (h, m)).1
          (results.foldl (fun st r => pushAdd uri st.1 st.2 r) (h, m)).2
      ∧ derefMap (results.foldl (fun st r => pushAdd uri st.1 st.2 r) (h, m)).1
          (results.foldl (fun st r => pushAdd uri st.1 st.2 r) (h, m)).2
        = addResults (derefMap h m) uri results := by
  intro results
  induction results with
  | nil =>
    intro h m hwf
    exact ⟨hwf, by simp [addResults]⟩
  | cons r rest ih =>
    intro h m hwf
    rw [List.foldl_cons]
    obtain ⟨hwf1, hd1⟩ := pushAdd_step hwf uri r
    obtain ⟨hwf2, hd2⟩ :=
      ih (pushAdd uri h m r).1 (pushAdd uri h m r).2 hwf1
    refine ⟨hwf2, ?_⟩
    rw [hd2, hd1]
    simp [addResults]

/-- The heap-model save update, read through the *new* map, computes
exactly the functional by-identifier delta (the by-id half of
`onDocumentSave`). -/
lemma saveUpdateHeap_spec {h : Heap} {m : PtrMap} (hwf : HeapWF h m)
    (uri : String) (oldReg results : List WalkerResult) :
    derefMap (saveUpdateHeap h m uri oldReg results).1
        (saveUpdateHeap h m uri oldReg results).2
      = addResults (removeResults (derefMap h m) uri oldReg) uri results := by
  obtain ⟨hwf1, hd1⟩ := removeFold_spec uri oldReg h m hwf
  obtain ⟨hwf2, hd2⟩ := addFold_spec uri results
    (oldReg.foldl (fun st r => spliceRemove uri st.1 st.2 r) (h, m)).1
    (oldReg.foldl (fun st r => spliceRemove uri st.1 st.2 r) (h, m)).2 hwf1
  show derefMap (results.foldl (fun st r => pushAdd uri st.1 st.2 r)
      (oldReg.foldl (fun st r => spliceRemove uri st.1 st.2 r) (h, m))).1
      (results.foldl (fun st r => pushAdd uri st.1 st.2 r)
      (oldReg.foldl (fun st r => spliceRemove uri st.1 st.2 r) (h, m))).2 = _
  rw [hd2, hd1]

/-- The sample heap snapshot is well-formed. -/
lemma heapWF_heap0 : HeapWF heap0 ptr0 := by
  refine ⟨?_, ?_, by simp [ptr0]⟩
  · intro k p hp
    rw [ptr0, ptrLookup] at hp
    split at hp
    · obtain rfl : (0 : Nat) = p := by injection hp
      simp [heap0]
    · simp [ptrLookup] at hp
  · intro k1 k2 p hne h1 h2
    rw [ptr0, ptrLookup] at h1 h2
    split at h1
    · rename_i hk1
      split at h2
      · rename_i hk2
        exact hne (hk1.symm.trans hk2)
      · simp [ptrLookup] at h2
    · simp [ptrLookup] at h1

/-! ## Claims about snapshot sharing (C7) -/

/-- C7 counterexample: in the heap model of `onDocumentSave`, the
previously published by-identifier `Map` (`ptr0`, published before the
save) shows different bucket contents after the save update than before
it — `entry.splice` mutated the array shared between the old and the new
`Map` — so previously published snapshots are not immune to mutation. -/
theorem claim_C7_counterexample :
    derefMap heap0 ptr0 "welcome" = [tagOcc "f1" rW, tagOcc "f2" rW2]
    ∧ derefMap (saveUpdateHeap heap0 ptr0 "f1" [rW] []).1 ptr0 "welcome"
        = [tagOcc "f2" rW2]
    ∧ derefMap (saveUpdateHeap heap0 ptr0 "f1" [rW] []).1 ptr0 "welcome"
        ≠ derefMap heap0 ptr0 "welcome" := by
  refine ⟨by decide, by decide, by decide⟩

/-- C7 (amended): each save update does create a fresh `Map` instance for
each view and publishes the two in immediate succession, and — on any
well-formed published snapshot — the *new* by-identifier map's dereferenced
contents are exactly the intended functional delta (the by-id half of
`onDocumentSave`); but the occurrence arrays inside the identifier buckets
are shared with the previously published snapshot and are mutated in place
(`splice` on removal, `push` on insertion), so the previously published
by-identifier view can change under its consumers. -/
theorem claim_C7_amended (h : Heap) (m : PtrMap) (uri : String)
    (oldReg results : List WalkerResult) (hwf : HeapWF h m) :
    ∀ k, derefMap (saveUpdateHeap h m uri oldReg results).1
        (saveUpdateHeap h m uri oldReg results).2 k
      = addResults (removeResults (derefMap h m) uri oldReg) uri results k := by
  intro k
  rw [saveUpdateHeap_spec hwf uri oldReg results]

/-- Witness for the amended C7 at the sample snapshot. -/
theorem claim_C7_amended_witness :
    derefMap (saveUpdateHeap heap0 ptr0 "f1" [rW] []).1
        (saveUpdateHeap heap0 ptr0 "f1" [rW] []).2 "welcome"
      = addResults (removeResults (derefMap heap0 ptr0) "f1" [rW]) "f1" []
          "welcome" :=
  claim_C7_amended heap0 ptr0 "f1" [rW] [] heapWF_heap0 "welcome"

end I18n
